import Mathlib

/-!
# Ranking & deduplication subsystem: shallow embedding

This file embeds the ranking/deduplication core of the media-search
aggregator (`app/ranking/deduplication.py`, `app/ranking/scorer.py`,
`app/agents/ranker.py`) and proves the specified properties about it.

Modelling conventions:
* Python floats are modelled as `ℚ`.  The two transcendental library
  primitives the code calls (`math.sqrt`, `math.log10`) are passed in as
  abstract function parameters `sqrt, log10 : ℚ → ℚ`.
* Python sets of strings are modelled as `List String` used only through
  membership, and through `List.dedup` where cardinality matters.
* `datetime.now(timezone.utc)` is an explicit parameter `now : Int`
  (epoch seconds); `created_at` is `Option Int` (epoch seconds);
  `timedelta.days` is floor division of the second difference by 86400.
* The optional OpenAI client is `Option (List String → Except String _)`;
  raising an exception in `embed_batch` is the `Except.error` case.
* Fields of `MediaItem`/`GeneratedQuery` never read by the ranking
  subsystem (photographer metadata, `duration`, `source_url`,
  `language_info`, …) are omitted from the records.
-/

namespace Media

/-- `MediaSource` enum from `app/models/media.py`. -/
inductive MediaSource
  | pexels
  | pixabay
  deriving DecidableEq

/-- `MediaType` enum from `app/models/media.py`. -/
inductive MediaType
  | image
  | video
  deriving DecidableEq

/-- `MediaDimensions` from `app/models/media.py` (width/height are `ge=0`). -/
structure MediaDimensions where
  width : Nat
  height : Nat
  deriving DecidableEq

/-- `MediaUrls` from `app/models/media.py`; URLs are modelled as strings
(the code only compares their string forms). -/
structure MediaUrls where
  original : String
  large : Option String := none
  medium : Option String := none
  small : Option String := none
  thumbnail : Option String := none
  deriving DecidableEq

/-- `MediaItem` from `app/models/media.py`, restricted to the fields the
ranking subsystem reads or writes. -/
structure MediaItem where
  id : String
  source : MediaSource
  media_type : MediaType
  urls : MediaUrls
  dimensions : MediaDimensions
  title : Option String := none
  description : Option String := none
  tags : List String := []
  views : Nat := 0
  downloads : Nat := 0
  likes : Nat := 0
  created_at : Option Int := none
  relevance_score : ℚ := 0
  quality_score : ℚ := 0
  final_score : ℚ := 0
  deriving DecidableEq

/-- `GeneratedQuery` from `app/models/query.py`, restricted to the fields
the scorer reads. -/
structure GeneratedQuery where
  original_text : String
  english_query : String
  semantic_concepts : List String := []
  keywords : List String := []
  synonyms : List String := []
  deriving DecidableEq

/-! ## Deduplication (`app/ranking/deduplication.py`) -/

/-- The left-to-right pass of `deduplicate_results`, carrying the
`seen_ids` / `seen_urls` sets. An item whose `id` is in `seen_ids` or whose
`urls.original` is in `seen_urls` is dropped and counted; an accepted item
contributes its `id` to `seen_ids` and its `original` plus `large`/`medium`
variants (when present) to `seen_urls`. -/
def dedupGo (seen_ids seen_urls : List String) :
    List MediaItem → List MediaItem × Nat
  | [] => ([], 0)
  | item :: rest =>
    if item.id ∈ seen_ids then
      let r := dedupGo seen_ids seen_urls rest
      (r.1, r.2 + 1)
    else if item.urls.original ∈ seen_urls then
      let r := dedupGo seen_ids seen_urls rest
      (r.1, r.2 + 1)
    else
      let su1 := item.urls.original :: seen_urls
      let su2 := match item.urls.large with
        | some u => u :: su1
        | none => su1
      let su3 := match item.urls.medium with
        | some u => u :: su2
        | none => su2
      let r := dedupGo (item.id :: seen_ids) su3 rest
      (item :: r.1, r.2)

/-- `deduplicate_results` from `app/ranking/deduplication.py`. -/
def deduplicate_results (items : List MediaItem) : List MediaItem × Nat :=
  dedupGo [] [] items

/-- Result of one batch of `deduplicate_across_batches`: the surviving
items, the duplicates counted, and the updated shared seen-sets. -/
structure BatchPass where
  unique : List MediaItem
  removed : Nat
  seen_ids : List String
  seen_urls : List String

/-- The inner loop of `deduplicate_across_batches` over one batch.  Unlike
`dedupGo` it records only the accepted item's `id` and `original` URL. -/
def acrossBatchGo (seen_ids seen_urls : List String) :
    List MediaItem → BatchPass
  | [] => ⟨[], 0, seen_ids, seen_urls⟩
  | item :: rest =>
    if item.id ∈ seen_ids then
      let r := acrossBatchGo seen_ids seen_urls rest
      { r with removed := r.removed + 1 }
    else if item.urls.original ∈ seen_urls then
      let r := acrossBatchGo seen_ids seen_urls rest
      { r with removed := r.removed + 1 }
    else
      let r := acrossBatchGo (item.id :: seen_ids)
        (item.urls.original :: seen_urls) rest
      { r with unique := item :: r.unique }

/-- The outer loop of `deduplicate_across_batches`: batches are processed
in order and the seen-sets are threaded from each batch to the next. -/
def acrossGo (seen_ids seen_urls : List String) :
    List (List MediaItem) → List (List MediaItem) × Nat
  | [] => ([], 0)
  | batch :: rest =>
    let b := acrossBatchGo seen_ids seen_urls batch
    let r := acrossGo b.seen_ids b.seen_urls rest
    (b.unique :: r.1, b.removed + r.2)

/-- `deduplicate_across_batches` from `app/ranking/deduplication.py`. -/
def deduplicate_across_batches (batch_results : List (List MediaItem)) :
    List (List MediaItem) × Nat :=
  acrossGo [] [] batch_results

/-- Reference pass for the cross-batch rule, written from the spec's words:
one left-to-right pass over a flat item stream with shared seen-ID/seen-URL
sets, where only an accepted item's `id` and `original` URL are recorded
(no `large`/`medium` enrichment). -/
def flatAcrossGo (seen_ids seen_urls : List String) :
    List MediaItem → List MediaItem × Nat
  | [] => ([], 0)
  | item :: rest =>
    if item.id ∈ seen_ids then
      let r := flatAcrossGo seen_ids seen_urls rest
      (r.1, r.2 + 1)
    else if item.urls.original ∈ seen_urls then
      let r := flatAcrossGo seen_ids seen_urls rest
      (r.1, r.2 + 1)
    else
      let r := flatAcrossGo (item.id :: seen_ids)
        (item.urls.original :: seen_urls) rest
      (item :: r.1, r.2)

/-- Accumulator of the spec-worded single-batch pass (§4.1 of the spec). -/
structure DedupState where
  seen_ids : List String
  seen_urls : List String
  unique : List MediaItem
  removed : Nat

/-- One step of the spec-worded single-batch pass: an item is dropped and
counted exactly when its id is already seen or its original URL is already
seen; an accepted item adds its id, and its original plus `large`/`medium`
URL variants when present, and is emitted at the end of the output. -/
def dedupStep (s : DedupState) (item : MediaItem) : DedupState :=
  if item.id ∈ s.seen_ids ∨ item.urls.original ∈ s.seen_urls then
    { s with removed := s.removed + 1 }
  else
    { seen_ids := item.id :: s.seen_ids
      seen_urls :=
        (match item.urls.medium with
          | some u => u :: (match item.urls.large with
              | some v => v :: (item.urls.original :: s.seen_urls)
              | none => item.urls.original :: s.seen_urls)
          | none => match item.urls.large with
              | some v => v :: (item.urls.original :: s.seen_urls)
              | none => item.urls.original :: s.seen_urls)
      unique := s.unique ++ [item]
      removed := s.removed }

/-- The spec-worded formulation of single-batch deduplication (§4.1):
a single left-to-right fold of `dedupStep` from empty seen-sets. -/
def dedupSpec (items : List MediaItem) : List MediaItem × Nat :=
  let s := items.foldl dedupStep ⟨[], [], [], 0⟩
  (s.unique, s.removed)

/-! ## Scoring (`app/ranking/scorer.py`) -/

/-- `DEFAULT_WEIGHTS` from `app/ranking/scorer.py`. -/
def DEFAULT_WEIGHTS : List (String × ℚ) :=
  [("semantic_relevance", 35/100),
   ("keyword_match", 20/100),
   ("visual_quality", 15/100),
   ("popularity", 10/100),
   ("recency", 10/100),
   ("source_diversity", 10/100)]

/-- Weight normalization from `MediaScorer.__init__`: if the raw sum is
positive every value is divided by it, otherwise the map is kept as is. -/
def normalizeWeights (w : List (String × ℚ)) : List (String × ℚ) :=
  let total := (w.map Prod.snd).sum
  if 0 < total then w.map (fun p => (p.1, p.2 / total)) else w

/-- `self.weights` as set up by `MediaScorer.__init__`:
`weights or DEFAULT_WEIGHTS.copy()` (Python truthiness: `None` and the
empty dict both fall back to the defaults), then normalized. -/
def scorerWeights (weights : Option (List (String × ℚ))) : List (String × ℚ) :=
  normalizeWeights (match weights with
    | none => DEFAULT_WEIGHTS
    | some w => if w = [] then DEFAULT_WEIGHTS else w)

/-- Python `str.split()`: split on whitespace, dropping empty pieces. -/
def splitWords (s : String) : List String :=
  (s.split Char.isWhitespace).filter (fun w => w ≠ "")

/-- The set of lower-cased query terms of `_calculate_keyword_score`:
keywords ++ semantic_concepts ++ synonyms, lower-cased, as a set. -/
def query_terms (query : GeneratedQuery) : List String :=
  ((query.keywords ++ query.semantic_concepts ++ query.synonyms).map
    String.toLower).dedup

/-- The set of item terms of `_calculate_keyword_score`: whitespace-split
title and description words plus tags, all lower-cased (Python truthiness:
an absent or empty title/description/tag-list contributes nothing). -/
def item_terms (item : MediaItem) : List String :=
  ((match item.title with
      | some t => if t = "" then [] else splitWords t.toLower
      | none => []) ++
   (match item.description with
      | some d => if d = "" then [] else splitWords d.toLower
      | none => []) ++
   (if item.tags = [] then [] else item.tags.map String.toLower)).dedup

/-- `MediaScorer._calculate_keyword_score`. -/
def calculate_keyword_score (item : MediaItem) (query : GeneratedQuery) : ℚ :=
  let qt := query_terms query
  if qt = [] then 1/2
  else
    let it := item_terms item
    if it = [] then 0
    else
      let nMatches := (qt.filter (fun t => t ∈ it)).length
      min 1 ((nMatches : ℚ) / (qt.length : ℚ))

/-- `MediaScorer._calculate_quality_score`: step function of pixel count. -/
def calculate_quality_score (item : MediaItem) : ℚ :=
  let pixels := item.dimensions.width * item.dimensions.height
  if pixels ≥ 4000000 then 1
  else if pixels ≥ 2000000 then 85/100
  else if pixels ≥ 1000000 then 7/10
  else if pixels ≥ 500000 then 1/2
  else 3/10

/-- `MediaScorer._calculate_popularity_score`; `math.log10` is the
abstract parameter `log10`. -/
def calculate_popularity_score (log10 : ℚ → ℚ) (item : MediaItem) : ℚ :=
  let popularity : ℚ :=
    (item.views : ℚ) * (1/2) + (item.downloads : ℚ) * (3/2) + (item.likes : ℚ) * 2
  if popularity ≤ 0 then 3/10
  else min 1 (log10 (popularity + 1) / 5)

/-- `MediaScorer._calculate_recency_score`; `now` is the current UTC time
in epoch seconds and `.days` is floor division by 86400. -/
def calculate_recency_score (now : Int) (item : MediaItem) : ℚ :=
  match item.created_at with
  | none => 1/2
  | some c =>
    let age_days := Int.fdiv (now - c) 86400
    if age_days ≤ 30 then 1
    else if age_days ≤ 180 then 4/5
    else if age_days ≤ 365 then 3/5
    else if age_days ≤ 730 then 2/5
    else 1/5

/-- `MediaScorer._count_sources` as a per-source counting function. -/
def count_sources (items : List MediaItem) (s : MediaSource) : Nat :=
  (items.filter (fun i => i.source = s)).length

/-- `sum(source_counts.values())`: sources absent from the dict have
count 0, so the sum is the sum over the two possible sources. -/
def sourceTotal (counts : MediaSource → Nat) : Nat :=
  counts MediaSource.pexels + counts MediaSource.pixabay

/-- `MediaScorer._calculate_diversity_score`. -/
def calculate_diversity_score (counts : MediaSource → Nat)
    (item : MediaItem) : ℚ :=
  let total := sourceTotal counts
  if total = 0 then 1/2
  else 1 - (counts item.source : ℚ) / (total : ℚ)

/-- `MediaScorer._cosine_similarity`; `math.sqrt` is the abstract
parameter `sqrt`. -/
def cosine_similarity (sqrt : ℚ → ℚ) (vec1 vec2 : List ℚ) : ℚ :=
  if vec1.length ≠ vec2.length then 0
  else
    let dot_product := ((vec1.zip vec2).map (fun p => p.1 * p.2)).sum
    let norm1 := sqrt ((vec1.map (fun a => a * a)).sum)
    let norm2 := sqrt ((vec2.map (fun b => b * b)).sum)
    if norm1 = 0 ∨ norm2 = 0 then 0
    else (dot_product / (norm1 * norm2) + 1) / 2

/-- The `scores` dict built by `_score_item`: one value per factor. -/
structure ScoreFactors where
  semantic_relevance : ℚ
  keyword_match : ℚ
  visual_quality : ℚ
  popularity : ℚ
  recency : ℚ
  source_diversity : ℚ
  deriving DecidableEq

/-- `scores.get(factor, 0)`: the dict holds exactly the six factor keys,
any other key yields the default 0. -/
def scoresGet (s : ScoreFactors) (factor : String) : ℚ :=
  if factor = "semantic_relevance" then s.semantic_relevance
  else if factor = "keyword_match" then s.keyword_match
  else if factor = "visual_quality" then s.visual_quality
  else if factor = "popularity" then s.popularity
  else if factor = "recency" then s.recency
  else if factor = "source_diversity" then s.source_diversity
  else 0

/-- `sum(scores.get(factor, 0) * weight for factor, weight in
self.weights.items())`. -/
def weightedSum (weights : List (String × ℚ)) (s : ScoreFactors) : ℚ :=
  (weights.map (fun p => scoresGet s p.1 * p.2)).sum

/-- Python truthiness of an optional embedding vector:
`None` and the empty list are falsy. -/
def truthyVec : Option (List ℚ) → Bool
  | none => false
  | some [] => false
  | some (_ :: _) => true

/-- `MediaScorer._score_item`: computes the six factor scores, takes the
weighted sum over `self.weights`, clamps it to `[0, 1]`, and writes the
three score fields of the item. -/
def score_item (weights : List (String × ℚ)) (sqrt log10 : ℚ → ℚ)
    (now : Int) (item : MediaItem) (query : GeneratedQuery)
    (query_embedding item_embedding : Option (List ℚ))
    (counts : MediaSource → Nat) : MediaItem :=
  let scores : ScoreFactors :=
    { semantic_relevance :=
        if truthyVec query_embedding && truthyVec item_embedding then
          cosine_similarity sqrt (query_embedding.getD [])
            (item_embedding.getD [])
        else 1/2
      keyword_match := calculate_keyword_score item query
      visual_quality := calculate_quality_score item
      popularity := calculate_popularity_score log10 item
      recency := calculate_recency_score now item
      source_diversity := calculate_diversity_score counts item }
  let final_score := weightedSum weights scores
  { item with
      relevance_score := scores.semantic_relevance
      quality_score := scores.visual_quality
      final_score := min 1 (max 0 final_score) }

/-- `MediaScorer._get_item_text`: title, description and space-joined tags
joined with spaces, or the literal `"media"` when all are absent/empty. -/
def get_item_text (item : MediaItem) : String :=
  let parts :=
    (match item.title with
      | some t => if t = "" then [] else [t]
      | none => []) ++
    (match item.description with
      | some d => if d = "" then [] else [d]
      | none => []) ++
    (if item.tags = [] then [] else [String.intercalate " " item.tags])
  if parts = [] then "media" else String.intercalate " " parts

/-- `MediaScorer._get_embeddings`: one batch call on
`[query_text] + item_texts`; the response is split into the query
embedding (`embeddings[0]`, an IndexError — i.e. an exception inside the
caller's try block — when the response is empty) and the item embeddings
(`embeddings[1:]`). -/
def get_embeddings (client : List String → Except String (List (List ℚ)))
    (items : List MediaItem) (query : GeneratedQuery) :
    Except String (List ℚ × List (List ℚ)) :=
  let query_text := query.english_query ++ " " ++
    String.intercalate " " query.keywords
  let item_texts := items.map get_item_text
  let all_texts := query_text :: item_texts
  match client all_texts with
  | Except.error e => Except.error e
  | Except.ok [] => Except.error "IndexError"
  | Except.ok (q :: rest) => Except.ok (q, rest)

/-- `item_embeddings[i] if item_embeddings else None`.  (With a provider
honouring the `embed_batch` contract the index is always in range; an
out-of-range index, which would raise in Python, is `none` here.) -/
def itemEmbeddingAt (item_embeddings : Option (List (List ℚ))) (i : Nat) :
    Option (List ℚ) :=
  match item_embeddings with
  | none => none
  | some [] => none
  | some (v :: rest) => (v :: rest).get? i

/-- `MediaScorer.score_items`: the optional embedding call (any exception
is caught and embeddings stay `None`), the batch-wide source counts, and
the per-item scoring pass in input order. `weights` is the normalized
`self.weights` of the scorer instance. -/
def score_items (client : Option (List String → Except String (List (List ℚ))))
    (weights : List (String × ℚ)) (sqrt log10 : ℚ → ℚ) (now : Int)
    (items : List MediaItem) (query : GeneratedQuery) : List MediaItem :=
  if items = [] then []
  else
    let emb : Option (List ℚ × List (List ℚ)) :=
      match client with
      | none => none
      | some c =>
        match get_embeddings c items query with
        | Except.ok v => some v
        | Except.error _ => none
    let query_embedding := emb.map Prod.fst
    let item_embeddings := emb.map Prod.snd
    let counts := count_sources items
    items.enum.map (fun p =>
      score_item weights sqrt log10 now p.2 query query_embedding
        (itemEmbeddingAt item_embeddings p.1) counts)

/-! ## Ranking orchestrator (`app/agents/ranker.py`) -/

/-- `RankInput` from `app/agents/ranker.py` (the `limit` is a plain Python
int, so it is `Int` here — the dataclass does no validation). -/
structure RankInput where
  items : List MediaItem
  query : GeneratedQuery
  limit : Int := 20
  min_quality_score : ℚ := 0
  deriving DecidableEq

/-- `RankResult` from `app/agents/ranker.py`. -/
structure RankResult where
  items : List MediaItem
  duplicates_removed : Nat := 0
  deriving DecidableEq

/-- The sort key relation of `scored_items.sort(key=lambda x:
x.final_score, reverse=True)`: `a` precedes `b` when `a.final_score ≥
b.final_score`. -/
def finalGE (a b : MediaItem) : Prop := b.final_score ≤ a.final_score

instance : DecidableRel finalGE := fun a b =>
  inferInstanceAs (Decidable (b.final_score ≤ a.final_score))

instance : IsTotal MediaItem finalGE :=
  ⟨fun a b => le_total b.final_score a.final_score⟩

instance : IsTrans MediaItem finalGE :=
  ⟨fun _ _ _ h1 h2 => le_trans h2 h1⟩

/-- Python's `lst[:limit]` for an arbitrary (possibly negative) int
`limit`: a negative bound counts from the end. -/
def pythonTake (limit : Int) (l : List α) : List α :=
  if limit < 0 then l.take ((l.length : Int) + limit).toNat
  else l.take limit.toNat

/-- Step 1+2 of `RankerAgent.process`: deduplicate, then score the
surviving items. -/
def rankScored (client : Option (List String → Except String (List (List ℚ))))
    (weights : Option (List (String × ℚ))) (sqrt log10 : ℚ → ℚ) (now : Int)
    (items : List MediaItem) (query : GeneratedQuery) : List MediaItem :=
  score_items client (scorerWeights weights) sqrt log10 now
    (deduplicate_results items).1 query

/-- Step 3 of `RankerAgent.process`: the `min_quality_score` filter,
applied only when the threshold is positive; a score equal to the
threshold passes. -/
def rankFiltered (client : Option (List String → Except String (List (List ℚ))))
    (weights : Option (List (String × ℚ))) (sqrt log10 : ℚ → ℚ) (now : Int)
    (items : List MediaItem) (query : GeneratedQuery)
    (min_quality_score : ℚ) : List MediaItem :=
  let scored_items := rankScored client weights sqrt log10 now items query
  if 0 < min_quality_score then
    scored_items.filter (fun item =>
      decide (min_quality_score ≤ item.final_score))
  else scored_items

/-- Step 4 of `RankerAgent.process`: the stable descending sort by
`final_score` (Python `list.sort` is stable; `insertionSort` is the
stable sort used here). -/
def rankSorted (client : Option (List String → Except String (List (List ℚ))))
    (weights : Option (List (String × ℚ))) (sqrt log10 : ℚ → ℚ) (now : Int)
    (items : List MediaItem) (query : GeneratedQuery)
    (min_quality_score : ℚ) : List MediaItem :=
  List.insertionSort finalGE
    (rankFiltered client weights sqrt log10 now items query min_quality_score)

/-- `RankerAgent.process`: empty input short-circuits; otherwise
deduplicate, score, filter, stable-sort descending, and apply the
`[:limit]` slice. -/
def rank (client : Option (List String → Except String (List (List ℚ))))
    (weights : Option (List (String × ℚ))) (sqrt log10 : ℚ → ℚ) (now : Int)
    (input_data : RankInput) : RankResult :=
  if input_data.items = [] then ⟨[], 0⟩
  else
    ⟨pythonTake input_data.limit
      (rankSorted client weights sqrt log10 now input_data.items
        input_data.query input_data.min_quality_score),
     (deduplicate_results input_data.items).2⟩

/-! ## Concrete fixtures used by witnesses and counterexamples -/

/-- A minimal well-formed item; fixtures below override fields. -/
def baseItem : MediaItem :=
  { id := "x"
    source := MediaSource.pexels
    media_type := MediaType.image
    urls := { original := "http://e/x" }
    dimensions := { width := 0, height := 0 } }

/-- A minimal query fixture. -/
def baseQuery : GeneratedQuery :=
  { original_text := "q", english_query := "q" }

/-- Fixture: item `1` of the spec's cross-batch dedup example. -/
def cbI1 : MediaItem := { baseItem with id := "1", urls := { original := "u1" } }

/-- Fixture: item `2` of the spec's cross-batch dedup example. -/
def cbI2 : MediaItem := { baseItem with id := "2", urls := { original := "u2" } }

/-- Fixture: item `3` of the spec's cross-batch dedup example. -/
def cbI3 : MediaItem := { baseItem with id := "3", urls := { original := "u3" } }

/-- Fixture: item `4` of the spec's cross-batch dedup example. -/
def cbI4 : MediaItem := { baseItem with id := "4", urls := { original := "u4" } }

/-- Fixture: an item whose `large` URL variant coincides with `cbB`'s
original URL. -/
def cbA : MediaItem :=
  { baseItem with id := "a", urls := { original := "v1", large := some "v2" } }

/-- Fixture: an item whose original URL is `cbA`'s `large` variant. -/
def cbB : MediaItem := { baseItem with id := "b", urls := { original := "v2" } }

/-- Fixture: first of two distinct, otherwise-default items. -/
def itemA : MediaItem := { baseItem with id := "a", urls := { original := "ua" } }

/-- Fixture: second of two distinct, otherwise-default items. -/
def itemB : MediaItem := { baseItem with id := "b", urls := { original := "ub" } }

/-- `itemA` as scored by the default configuration with no embeddings in
the batch `[itemA, itemB]`. -/
def itemARanked : MediaItem := { itemA with relevance_score := 1/2, quality_score := 3/10, final_score := 2/5 }

/-- `itemB` as scored by the default configuration with no embeddings in
the batch `[itemA, itemB]`. -/
def itemBRanked : MediaItem := { itemB with relevance_score := 1/2, quality_score := 3/10, final_score := 2/5 }

/-- Fixture: a rank call with a negative `limit`. -/
def rankInputNeg : RankInput := { items := [itemA, itemB], query := baseQuery, limit := -1, min_quality_score := 0 }

/-- Fixture: a query with one keyword. -/
def qCat : GeneratedQuery := { baseQuery with keywords := ["cat"] }

/-- Fixture: an item whose tags overlap `qCat`'s keyword set. -/
def catItem : MediaItem := { baseItem with id := "c", tags := ["cat"] }

/-! ## Deduplication lemmas -/

/-- The survivors of the single-batch pass form a sublist of the input. -/
theorem dedupGo_sublist (items : List MediaItem) :
    ∀ si su : List String, (dedupGo si su items).1.Sublist items := by
  induction items with
  | nil => intro si su; simp [dedupGo]
  | cons item rest ih =>
    intro si su
    by_cases h1 : item.id ∈ si
    · simpa [dedupGo, h1] using (ih si su).trans (List.sublist_cons_self item rest)
    · by_cases h2 : item.urls.original ∈ su
      · simpa [dedupGo, h1, h2] using
          (ih si su).trans (List.sublist_cons_self item rest)
      · simpa [dedupGo, h1, h2] using (ih _ _).cons₂ item

/-- Survivor count plus removed count equals the input length. -/
theorem dedupGo_length (items : List MediaItem) :
    ∀ si su : List String,
      (dedupGo si su items).1.length + (dedupGo si su items).2 = items.length := by
  induction items with
  | nil => intro si su; simp [dedupGo]
  | cons item rest ih =>
    intro si su
    by_cases h1 : item.id ∈ si
    · simp only [dedupGo, h1, if_true]
      rw [← Nat.add_assoc, ih]
      simp
    · by_cases h2 : item.urls.original ∈ su
      · simp only [dedupGo, h1, h2, if_true, if_false]
        rw [← Nat.add_assoc, ih]
        simp
      · simp only [dedupGo, h1, h2, if_false]
        simp only [List.length_cons]
        rw [Nat.succ_add, ih]

/-- Re-running the single-batch pass on its own survivors from the same
starting seen-sets accepts every item and removes nothing. -/
theorem dedupGo_idem (items : List MediaItem) :
    ∀ si su : List String,
      dedupGo si su (dedupGo si su items).1 = ((dedupGo si su items).1, 0) := by
  induction items with
  | nil => intro si su; simp [dedupGo]
  | cons item rest ih =>
    intro si su
    by_cases h1 : item.id ∈ si
    · simpa [dedupGo, h1] using ih si su
    · by_cases h2 : item.urls.original ∈ su
      · simpa [dedupGo, h1, h2] using ih si su
      · simp only [dedupGo, h1, h2, if_false]
        simp only [dedupGo, h1, h2, if_false, ih]

/-- The fold of the spec-worded step replays `dedupGo`, appending the
accepted items to the accumulator and adding the removed counts. -/
theorem foldl_dedupStep (items : List MediaItem) :
    ∀ (si su : List String) (u : List MediaItem) (n : Nat),
      (items.foldl dedupStep ⟨si, su, u, n⟩).unique
          = u ++ (dedupGo si su items).1 ∧
      (items.foldl dedupStep ⟨si, su, u, n⟩).removed
          = n + (dedupGo si su items).2 := by
  induction items with
  | nil => intro si su u n; simp [dedupGo]
  | cons item rest ih =>
    intro si su u n
    by_cases h1 : item.id ∈ si
    · have hstep : dedupStep ⟨si, su, u, n⟩ item = ⟨si, su, u, n + 1⟩ := by
        simp [dedupStep, h1]
      simp only [List.foldl_cons, hstep, dedupGo, h1, if_true]
      refine ⟨(ih si su u (n + 1)).1, ?_⟩
      rw [(ih si su u (n + 1)).2]
      omega
    · by_cases h2 : item.urls.original ∈ su
      · have hstep : dedupStep ⟨si, su, u, n⟩ item = ⟨si, su, u, n + 1⟩ := by
          simp [dedupStep, h1, h2]
        simp only [List.foldl_cons, hstep, dedupGo, h1, h2, if_true, if_false]
        refine ⟨(ih si su u (n + 1)).1, ?_⟩
        rw [(ih si su u (n + 1)).2]
        omega
      · have hstep : dedupStep ⟨si, su, u, n⟩ item =
            ⟨item.id :: si,
             (match item.urls.medium with
               | some mu => mu :: (match item.urls.large with
                   | some v => v :: (item.urls.original :: su)
                   | none => item.urls.original :: su)
               | none => match item.urls.large with
                   | some v => v :: (item.urls.original :: su)
                   | none => item.urls.original :: su),
             u ++ [item], n⟩ := by
          simp [dedupStep, h1, h2]
        simp only [List.foldl_cons, hstep, dedupGo, h1, h2, if_false]
        constructor
        · rw [(ih _ _ _ _).1]
          simp
        · rw [(ih _ _ _ _).2]

/-- One batch of the cross-batch pass agrees with the flat shared-state
pass run on that batch followed by any continuation. -/
theorem flatAcrossGo_append (batch : List MediaItem) :
    ∀ (si su : List String) (l : List MediaItem),
      flatAcrossGo si su (batch ++ l) =
        ((acrossBatchGo si su batch).unique
            ++ (flatAcrossGo (acrossBatchGo si su batch).seen_ids
                  (acrossBatchGo si su batch).seen_urls l).1,
         (acrossBatchGo si su batch).removed
            + (flatAcrossGo (acrossBatchGo si su batch).seen_ids
                  (acrossBatchGo si su batch).seen_urls l).2) := by
  induction batch with
  | nil => intro si su l; simp [acrossBatchGo]
  | cons item rest ih =>
    intro si su l
    by_cases h1 : item.id ∈ si
    · simp only [List.cons_append, flatAcrossGo, acrossBatchGo, h1, if_true,
        List.append_eq]
      rw [ih si su l]
      simp [Nat.add_assoc, Nat.add_comm, Nat.add_left_comm]
    · by_cases h2 : item.urls.original ∈ su
      · simp only [List.cons_append, flatAcrossGo, acrossBatchGo, h1, h2,
          if_true, if_false, List.append_eq]
        rw [ih si su l]
        simp [Nat.add_assoc, Nat.add_comm, Nat.add_left_comm]
      · simp only [List.cons_append, flatAcrossGo, acrossBatchGo, h1, h2,
          if_false, List.append_eq]
        rw [ih (item.id :: si) (item.urls.original :: su) l]

/-- The cross-batch pass, flattened, is exactly the flat shared-state pass
on the flattened input: the seen-sets are shared and accumulated across
batches in batch order. -/
theorem acrossGo_join (bs : List (List MediaItem)) :
    ∀ si su : List String,
      ((acrossGo si su bs).1.flatten, (acrossGo si su bs).2)
        = flatAcrossGo si su bs.flatten := by
  induction bs with
  | nil => intro si su; simp [acrossGo, flatAcrossGo]
  | cons batch rest ih =>
    intro si su
    simp only [acrossGo, List.flatten, List.flatten_cons, flatAcrossGo_append]
    rw [← ih]

/-- Batch boundaries are preserved: one output batch per input batch. -/
theorem acrossGo_length (bs : List (List MediaItem)) :
    ∀ si su : List String, (acrossGo si su bs).1.length = bs.length := by
  induction bs with
  | nil => intro si su; simp [acrossGo]
  | cons batch rest ih => intro si su; simp [acrossGo, ih]

/-- The survivors of one cross-batch batch form a sublist of that batch. -/
theorem acrossBatchGo_sublist (batch : List MediaItem) :
    ∀ si su : List String, (acrossBatchGo si su batch).unique.Sublist batch := by
  induction batch with
  | nil => intro si su; simp [acrossBatchGo]
  | cons item rest ih =>
    intro si su
    by_cases h1 : item.id ∈ si
    · simpa [acrossBatchGo, h1] using
        (ih si su).trans (List.sublist_cons_self item rest)
    · by_cases h2 : item.urls.original ∈ su
      · simpa [acrossBatchGo, h1, h2] using
          (ih si su).trans (List.sublist_cons_self item rest)
      · simpa [acrossBatchGo, h1, h2] using (ih _ _).cons₂ item

/-- Each output batch of the cross-batch pass is a sublist of the
corresponding input batch. -/
theorem acrossGo_getD_sublist (bs : List (List MediaItem)) :
    ∀ (si su : List String) (i : Nat),
      ((acrossGo si su bs).1.getD i []).Sublist (bs.getD i []) := by
  induction bs with
  | nil => intro si su i; simp [acrossGo]
  | cons batch rest ih =>
    intro si su i
    cases i with
    | zero => simpa [acrossGo] using acrossBatchGo_sublist batch si su
    | succ j => simpa [acrossGo] using ih _ _ j

/-! ## Claim theorems: deduplication -/

/-- C2: `deduplicate_across_batches` shares and accumulates the seen-ID
and seen-URL sets across all batches in batch order (flattening it yields
the single shared-state pass over the flattened input, with the same total
removed count), preserves batch boundaries (one output batch per input
batch) and per-batch order (each output batch is a sublist of its input
batch), reproduces the spec's cross-batch example
`[[1,2],[2,3],[1,4]] → [[1,2],[3],[4]]` with `total_removed = 2`, and,
unlike `deduplicate_results`, never seeds the seen-URL set with an
accepted item's `large`/`medium` variants: a later item whose original URL
equals an earlier item's `large` variant survives the cross-batch pass but
is dropped by the single-batch pass. -/
theorem c2_deduplicate_across_batches :
    (∀ bs : List (List MediaItem),
      ((deduplicate_across_batches bs).1.flatten, (deduplicate_across_batches bs).2)
        = flatAcrossGo [] [] bs.flatten)
  ∧ (∀ bs : List (List MediaItem),
      (deduplicate_across_batches bs).1.length = bs.length)
  ∧ (∀ (bs : List (List MediaItem)) (i : Nat),
      ((deduplicate_across_batches bs).1.getD i []).Sublist (bs.getD i []))
  ∧ deduplicate_across_batches [[cbI1, cbI2], [cbI2, cbI3], [cbI1, cbI4]]
      = ([[cbI1, cbI2], [cbI3], [cbI4]], 2)
  ∧ deduplicate_across_batches [[cbA], [cbB]] = ([[cbA], [cbB]], 0)
  ∧ deduplicate_results [cbA, cbB] = ([cbA], 1) := by
  refine ⟨fun bs => acrossGo_join bs [] [],
    fun bs => acrossGo_length bs [] [],
    fun bs i => acrossGo_getD_sublist bs [] [] i, by decide, by decide, by decide⟩

/-- C3: deduplication is idempotent — running `deduplicate_results` on
the unique-items output of a previous run returns the same list and a
removed count of 0. -/
theorem c3_deduplicate_idempotent :
    ∀ items : List MediaItem,
      deduplicate_results (deduplicate_results items).1
        = ((deduplicate_results items).1, 0) :=
  fun items => dedupGo_idem items [] []

/-- C4: `deduplicate_results` is the single left-to-right pass described
by the spec — an item is dropped and counted exactly when its id is
already seen or its original URL is already seen, an accepted item records
its id and its original/`large`/`medium` URLs and is emitted in place
(`dedupSpec` is that spec-worded fold, and the two agree on every input);
surviving items keep their original relative order (they form a sublist of
the input), the removed count is the number of dropped items, and empty
input yields `([], 0)`. -/
theorem c4_deduplicate_single_pass :
    (∀ items : List MediaItem, deduplicate_results items = dedupSpec items)
  ∧ (∀ items : List MediaItem, (deduplicate_results items).1.Sublist items)
  ∧ (∀ items : List MediaItem,
      (deduplicate_results items).1.length + (deduplicate_results items).2
        = items.length)
  ∧ deduplicate_results [] = ([], 0) := by
  refine ⟨fun items => ?_, fun items => dedupGo_sublist items [] [],
    fun items => dedupGo_length items [] [], by decide⟩
  have h := foldl_dedupStep items [] [] [] 0
  simp only [deduplicate_results, dedupSpec]
  rw [Prod.ext_iff]
  exact ⟨by rw [h.1]; simp, by rw [h.2]; simp⟩

/-! ## Claim theorems: scoring -/

/-- C5: after `score_items`, with any non-negative weight configuration,
every item's `final_score` lies in `[0, 1]` — the weighted factor sum is
clamped to that interval. -/
theorem c5_final_score_bounds
    (client : Option (List String → Except String (List (List ℚ))))
    (weights : List (String × ℚ)) (sqrt log10 : ℚ → ℚ) (now : Int)
    (items : List MediaItem) (query : GeneratedQuery)
    (_hw : ∀ p ∈ weights, 0 ≤ p.2) :
    ∀ item ∈ score_items client weights sqrt log10 now items query,
      0 ≤ item.final_score ∧ item.final_score ≤ 1 := by
  intro item hmem
  unfold score_items at hmem
  by_cases h : items = []
  · simp [h] at hmem
  · simp only [h, if_false, List.mem_map] at hmem
    obtain ⟨p, hp, rfl⟩ := hmem
    refine ⟨?_, ?_⟩
    · exact le_min (by norm_num) (le_max_left 0 _)
    · exact min_le_left _ _

/-- C5 witness: a concrete non-negative weight configuration and batch on
which the bounds hold. -/
theorem c5_final_score_bounds_witness :
    (∀ p ∈ DEFAULT_WEIGHTS, 0 ≤ p.2) ∧
    (∀ item ∈ score_items none DEFAULT_WEIGHTS id id 0 [baseItem] baseQuery,
      0 ≤ item.final_score ∧ item.final_score ≤ 1) :=
  ⟨by norm_num [DEFAULT_WEIGHTS],
   c5_final_score_bounds none DEFAULT_WEIGHTS id id 0 [baseItem] baseQuery
     (by norm_num [DEFAULT_WEIGHTS])⟩

/-- C7: when the embedding provider raises on every call, `score_items`
catches the exception (behaving exactly as if no provider were
configured), still returns one fully scored item per input item, and
every returned item carries the default semantic relevance
`relevance_score = 1/2`. -/
theorem c7_embedding_failure_degrades
    (c : List String → Except String (List (List ℚ)))
    (weights : List (String × ℚ)) (sqrt log10 : ℚ → ℚ) (now : Int)
    (items : List MediaItem) (query : GeneratedQuery)
    (hfail : ∀ texts, ∃ e, c texts = Except.error e) :
    score_items (some c) weights sqrt log10 now items query
      = score_items none weights sqrt log10 now items query
  ∧ (score_items (some c) weights sqrt log10 now items query).length
      = items.length
  ∧ ∀ item ∈ score_items (some c) weights sqrt log10 now items query,
      item.relevance_score = 1/2 := by
  obtain ⟨e, he⟩ := hfail ((query.english_query ++ " " ++
    String.intercalate " " query.keywords) :: items.map get_item_text)
  have hemb : get_embeddings c items query = Except.error e := by
    simp only [get_embeddings]
    rw [he]
  have key : score_items (some c) weights sqrt log10 now items query
      = score_items none weights sqrt log10 now items query := by
    unfold score_items
    by_cases h : items = []
    · simp [h]
    · simp [h, hemb]
  refine ⟨key, ?_, ?_⟩
  · rw [key]
    unfold score_items
    by_cases h : items = []
    · simp [h]
    · simp [h]
  · intro item hmem
    rw [key] at hmem
    unfold score_items at hmem
    by_cases h : items = []
    · simp [h] at hmem
    · simp only [h, if_false, List.mem_map] at hmem
      obtain ⟨p, hp, rfl⟩ := hmem
      simp [score_item, truthyVec, itemEmbeddingAt]

/-- C7 witness: a provider that raises on every call, on a concrete
one-item batch. -/
theorem c7_embedding_failure_degrades_witness :
    score_items (some fun _ => Except.error "boom") DEFAULT_WEIGHTS id id 0
        [baseItem] baseQuery
      = score_items none DEFAULT_WEIGHTS id id 0 [baseItem] baseQuery
  ∧ (score_items (some fun _ => Except.error "boom") DEFAULT_WEIGHTS id id 0
        [baseItem] baseQuery).length = 1
  ∧ ∀ item ∈ score_items (some fun _ => Except.error "boom") DEFAULT_WEIGHTS
        id id 0 [baseItem] baseQuery,
      item.relevance_score = 1/2 :=
  c7_embedding_failure_degrades (fun _ => Except.error "boom")
    DEFAULT_WEIGHTS id id 0 [baseItem] baseQuery (fun _ => ⟨"boom", rfl⟩)

/-- C8: the cosine-similarity primitive returns 0 when the vectors have
different lengths or either computed norm is exactly 0; otherwise it
returns the dot product over the product of norms rescaled by
`(cos + 1) / 2`; whenever the `sqrt` primitive maps 1 to 1 (as the real
square root does), identical unit vectors score 1 and orthogonal unit
vectors score 1/2, and mismatched-length vectors score 0. -/
theorem c8_cosine_similarity (sqrt : ℚ → ℚ) (vec1 vec2 : List ℚ) :
    (vec1.length ≠ vec2.length → cosine_similarity sqrt vec1 vec2 = 0)
  ∧ (sqrt ((vec1.map (fun a => a * a)).sum) = 0 ∨
      sqrt ((vec2.map (fun b => b * b)).sum) = 0 →
      cosine_similarity sqrt vec1 vec2 = 0)
  ∧ (vec1.length = vec2.length →
      sqrt ((vec1.map (fun a => a * a)).sum) ≠ 0 →
      sqrt ((vec2.map (fun b => b * b)).sum) ≠ 0 →
      cosine_similarity sqrt vec1 vec2 =
        (((vec1.zip vec2).map (fun p => p.1 * p.2)).sum /
          (sqrt ((vec1.map (fun a => a * a)).sum) *
           sqrt ((vec2.map (fun b => b * b)).sum)) + 1) / 2)
  ∧ (sqrt 1 = 1 →
      cosine_similarity sqrt [1, 0] [1, 0] = 1 ∧
      cosine_similarity sqrt [1, 0] [0, 1] = 1/2)
  ∧ cosine_similarity sqrt [1] [1, 0] = 0 := by
  have hsum11 : (([1, 0] : List ℚ).map (fun a => a * a)).sum = 1 := by norm_num
  have hsum01 : (([0, 1] : List ℚ).map (fun b => b * b)).sum = 1 := by norm_num
  refine ⟨?_, ?_, ?_, ?_, ?_⟩
  · intro h
    simp [cosine_similarity, h]
  · intro h
    by_cases hl : vec1.length = vec2.length
    · simp [cosine_similarity, hl, h]
    · simp [cosine_similarity, hl]
  · intro hl h1 h2
    simp [cosine_similarity, hl, h1, h2]
  · intro hs
    constructor
    · simp only [cosine_similarity, hsum11, hs]
      norm_num
    · simp only [cosine_similarity, hsum11, hsum01, hs]
      norm_num
  · simp [cosine_similarity]

/-- C8 witness: the square-root parameter instantiated at a concrete
function with `sqrt 1 = 1`, on concrete vectors. -/
theorem c8_cosine_similarity_witness :
    cosine_similarity id [1, 0] [1, 0] = 1
  ∧ cosine_similarity id [1, 0] [0, 1] = 1/2
  ∧ cosine_similarity id [1] [1, 0] = 0 :=
  ⟨((c8_cosine_similarity id [1, 0] [1, 0]).2.2.2.1 rfl).1,
   ((c8_cosine_similarity id [1, 0] [0, 1]).2.2.2.1 rfl).2,
   (c8_cosine_similarity id [1] [1, 0]).2.2.2.2⟩

/-- C10: caller-supplied weights fully replace the defaults — a non-empty
caller map is only normalized, its key set is kept as given (factors
absent from it are absent from the normalized map), and the weighted
final-score sum reads exactly the factors present in the weight map, so an
absent factor contributes 0 (the sum is unchanged by the values of absent
factors, and a map containing only `visual_quality` yields exactly the
visual-quality score); a caller-supplied empty map is treated as absent
and falls back to the default weights, which normalize to themselves
(their sum is already 1). -/
theorem c10_weights_override :
    (∀ w : List (String × ℚ), w ≠ [] → scorerWeights (some w) = normalizeWeights w)
  ∧ (∀ w : List (String × ℚ), (normalizeWeights w).map Prod.fst = w.map Prod.fst)
  ∧ (∀ (w : List (String × ℚ)) (s1 s2 : ScoreFactors),
      (∀ f ∈ w.map Prod.fst, scoresGet s1 f = scoresGet s2 f) →
      weightedSum w s1 = weightedSum w s2)
  ∧ (∀ s : ScoreFactors, weightedSum [("visual_quality", 1)] s = s.visual_quality)
  ∧ scorerWeights (some []) = scorerWeights none
  ∧ scorerWeights none = DEFAULT_WEIGHTS := by
  refine ⟨?_, ?_, ?_, ?_, rfl, ?_⟩
  · intro w hw
    simp [scorerWeights, hw]
  · intro w
    simp only [normalizeWeights]
    by_cases h : 0 < (w.map Prod.snd).sum
    · simp [h, List.map_map]
    · simp [h]
  · intro w s1 s2 h
    unfold weightedSum
    induction w with
    | nil => rfl
    | cons p rest ih =>
      simp only [List.map_cons, List.sum_cons]
      rw [h p.1 (by simp), ih (fun f hf => h f (by simp [hf]))]
  · intro s
    simp [weightedSum, scoresGet]
  · simp only [scorerWeights, normalizeWeights, DEFAULT_WEIGHTS]
    norm_num

/-- C10 witness: the weighted sum over a map holding only
`visual_quality` ignores the values of all the other factors. -/
theorem c10_weights_override_witness :
    weightedSum [("visual_quality", 1)] ⟨0, 0, 1, 0, 0, 0⟩
      = weightedSum [("visual_quality", 1)] ⟨1, 1, 1, 1, 1, 1⟩ :=
  c10_weights_override.2.2.1 [("visual_quality", 1)] ⟨0, 0, 1, 0, 0, 0⟩
    ⟨1, 1, 1, 1, 1, 1⟩ (by decide)

/-! ## Scoring helper lemmas -/

/-- The default weights already sum to 1, so normalization keeps them. -/
theorem scorerWeights_none : scorerWeights none = DEFAULT_WEIGHTS := by
  simp only [scorerWeights, normalizeWeights, DEFAULT_WEIGHTS]
  norm_num

/-- The weighted sum over the default weight map, spelled out. -/
theorem weightedSum_default (s : ScoreFactors) :
    weightedSum DEFAULT_WEIGHTS s =
      s.semantic_relevance * (35/100) + s.keyword_match * (20/100)
        + s.visual_quality * (15/100) + s.popularity * (10/100)
        + s.recency * (10/100) + s.source_diversity * (10/100) := by
  simp [weightedSum, DEFAULT_WEIGHTS, scoresGet]
  ring

/-- The quality step function only takes the five values in `[3/10, 1]`. -/
theorem quality_score_bounds (item : MediaItem) :
    3/10 ≤ calculate_quality_score item ∧ calculate_quality_score item ≤ 1 := by
  simp only [calculate_quality_score]
  split_ifs <;> norm_num

/-- The popularity score stays in `[0, 1]` whenever the `log10` primitive
is non-negative on arguments `≥ 1` (as the real `log10` is). -/
theorem popularity_score_bounds (log10 : ℚ → ℚ) (item : MediaItem)
    (hlog : ∀ x : ℚ, 1 ≤ x → 0 ≤ log10 x) :
    0 ≤ calculate_popularity_score log10 item ∧
      calculate_popularity_score log10 item ≤ 1 := by
  simp only [calculate_popularity_score]
  split_ifs with h
  · norm_num
  · refine ⟨le_min (by norm_num) ?_, min_le_left _ _⟩
    have h1 : (1:ℚ) ≤ (item.views : ℚ) * (1/2) + (item.downloads : ℚ) * (3/2)
        + (item.likes : ℚ) * 2 + 1 := by
      push_neg at h
      linarith
    exact div_nonneg (hlog _ h1) (by norm_num)

/-- The recency score only takes the six values in `[1/5, 1]`. -/
theorem recency_score_bounds (now : Int) (item : MediaItem) :
    1/5 ≤ calculate_recency_score now item ∧
      calculate_recency_score now item ≤ 1 := by
  rcases hc : item.created_at with _ | c <;>
    simp only [calculate_recency_score, hc]
  · norm_num
  · split_ifs <;> norm_num

/-- An individual source count never exceeds the total count. -/
theorem count_le_sourceTotal (l : List MediaItem) (s : MediaSource) :
    count_sources l s ≤ sourceTotal (count_sources l) := by
  cases s with
  | pexels => exact Nat.le_add_right _ _
  | pixabay => exact Nat.le_add_left _ _

/-- The diversity score stays in `[0, 1]` when the counts come from an
actual batch. -/
theorem diversity_score_bounds (l : List MediaItem) (item : MediaItem) :
    0 ≤ calculate_diversity_score (count_sources l) item ∧
      calculate_diversity_score (count_sources l) item ≤ 1 := by
  simp only [calculate_diversity_score]
  split_ifs with h
  · norm_num
  · constructor
    · have hle := count_le_sourceTotal l item.source
      have htot : (0:ℚ) < (sourceTotal (count_sources l) : ℚ) := by
        exact_mod_cast Nat.pos_of_ne_zero h
      have hdiv : ((count_sources l item.source : ℚ))
          / (sourceTotal (count_sources l) : ℚ) ≤ 1 :=
        (div_le_one htot).mpr (by exact_mod_cast hle)
      linarith
    · have hnn : (0:ℚ) ≤ ((count_sources l item.source : ℚ))
          / (sourceTotal (count_sources l) : ℚ) := by positivity
      linarith

/-- The keyword score stays in `[0, 1]`. -/
theorem keyword_score_bounds (item : MediaItem) (query : GeneratedQuery) :
    0 ≤ calculate_keyword_score item query ∧
      calculate_keyword_score item query ≤ 1 := by
  simp only [calculate_keyword_score]
  split_ifs with h1 h2
  · norm_num
  · norm_num
  · exact ⟨le_min (by norm_num) (by positivity), min_le_left _ _⟩

/-- An item none of whose terms appear among the (non-empty) query terms
scores 0 on keyword match. -/
theorem keyword_score_eq_zero (item : MediaItem) (query : GeneratedQuery)
    (hq : query_terms query ≠ [])
    (hmiss : ∀ t ∈ item_terms item, t ∉ query_terms query) :
    calculate_keyword_score item query = 0 := by
  simp only [calculate_keyword_score]
  rw [if_neg hq]
  by_cases hit : item_terms item = []
  · rw [if_pos hit]
  · rw [if_neg hit]
    have hfil : (query_terms query).filter
        (fun t => decide (t ∈ item_terms item)) = [] := by
      refine List.filter_eq_nil_iff.mpr ?_
      intro t ht
      simp only [decide_eq_true_eq]
      exact fun hmem => hmiss t hmem ht
    rw [hfil]
    norm_num

/-- An item one of whose tags is among the query terms scores strictly
positively on keyword match. -/
theorem keyword_score_pos (item : MediaItem) (query : GeneratedQuery)
    (t : String) (ht : t ∈ item.tags) (htq : t.toLower ∈ query_terms query) :
    0 < calculate_keyword_score item query := by
  have hq : query_terms query ≠ [] := by
    intro h
    rw [h] at htq
    exact List.not_mem_nil _ htq
  have htags : item.tags ≠ [] := by
    intro h
    rw [h] at ht
    exact List.not_mem_nil _ ht
  have hit : t.toLower ∈ item_terms item := by
    simp only [item_terms, List.mem_dedup, List.mem_append]
    right
    rw [if_neg htags]
    exact List.mem_map_of_mem _ ht
  have hitne : item_terms item ≠ [] := by
    intro h
    rw [h] at hit
    exact List.not_mem_nil _ hit
  simp only [calculate_keyword_score]
  rw [if_neg hq, if_neg hitne]
  have hmem : t.toLower ∈ (query_terms query).filter
      (fun x => decide (x ∈ item_terms item)) :=
    List.mem_filter.mpr ⟨htq, by simpa using hit⟩
  have hlenpos : 0 < ((query_terms query).filter
      (fun x => decide (x ∈ item_terms item))).length :=
    List.length_pos.mpr (List.ne_nil_of_mem hmem)
  have hqlen : 0 < (query_terms query).length := List.length_pos.mpr hq
  exact lt_min (by norm_num)
    (div_pos (by exact_mod_cast hlenpos) (by exact_mod_cast hqlen))

/-- `_score_item` with no embeddings: the final score is the clamped
weighted sum of the six factor scores, with semantic relevance at its
default `1/2`. -/
theorem score_item_none_final (weights : List (String × ℚ))
    (sqrt log10 : ℚ → ℚ) (now : Int) (item : MediaItem)
    (query : GeneratedQuery) (counts : MediaSource → Nat) :
    (score_item weights sqrt log10 now item query none none counts).final_score
      = min 1 (max 0 (weightedSum weights
          ⟨1/2, calculate_keyword_score item query,
           calculate_quality_score item,
           calculate_popularity_score log10 item,
           calculate_recency_score now item,
           calculate_diversity_score counts item⟩)) := by
  simp [score_item, truthyVec]

/-- Clamping to `[0, 1]` preserves a strict increase when the lower value
is non-negative and the higher value is at most 1. -/
theorem clamp_lt_clamp (a b : ℚ) (ha : 0 ≤ a) (hb : b ≤ 1) (hab : a < b) :
    min 1 (max 0 a) < min 1 (max 0 b) := by
  rw [max_eq_right ha, max_eq_right (ha.trans hab.le),
    min_eq_right (hab.le.trans hb), min_eq_right hb]
  exact hab

/-! ## Claim theorems: ranking orchestrator and relational properties -/

/-- C9: two items scored in the same batch with the default weights and no
embeddings, identical in every factor-relevant field, except that one has
a tag among the query's terms while the other's terms are disjoint from
them: the matching item's final score strictly exceeds the other's.
(`log10` is only assumed non-negative on arguments `≥ 1`, as the real
`math.log10` is.) -/
theorem c9_keyword_match_boosts_rank (sqrt log10 : ℚ → ℚ) (now : Int)
    (l : List MediaItem) (query : GeneratedQuery) (i1 i2 : MediaItem)
    (hsrc : i1.source = i2.source)
    (hdim : i1.dimensions = i2.dimensions)
    (hviews : i1.views = i2.views)
    (hdownloads : i1.downloads = i2.downloads)
    (hlikes : i1.likes = i2.likes)
    (hcreated : i1.created_at = i2.created_at)
    (hlog : ∀ x : ℚ, 1 ≤ x → 0 ≤ log10 x)
    (hover : ∃ t ∈ i1.tags, t.toLower ∈ query_terms query)
    (hmiss : ∀ t ∈ item_terms i2, t ∉ query_terms query) :
    (score_item (scorerWeights none) sqrt log10 now i2 query none none
        (count_sources l)).final_score
      < (score_item (scorerWeights none) sqrt log10 now i1 query none none
        (count_sources l)).final_score := by
  obtain ⟨t, ht, htq⟩ := hover
  have hq2 : query_terms query ≠ [] := by
    intro h
    rw [h] at htq
    exact List.not_mem_nil _ htq
  have hk2 : calculate_keyword_score i2 query = 0 :=
    keyword_score_eq_zero i2 query hq2 hmiss
  have hk1pos : 0 < calculate_keyword_score i1 query :=
    keyword_score_pos i1 query t ht htq
  have hk1le := (keyword_score_bounds i1 query).2
  obtain ⟨hq0, hq1⟩ := quality_score_bounds i2
  obtain ⟨hp0, hp1⟩ := popularity_score_bounds log10 i2 hlog
  obtain ⟨hr0, hr1⟩ := recency_score_bounds now i2
  obtain ⟨hd0, hd1⟩ := diversity_score_bounds l i2
  have heq_q : calculate_quality_score i1 = calculate_quality_score i2 := by
    simp [calculate_quality_score, hdim]
  have heq_p : calculate_popularity_score log10 i1
      = calculate_popularity_score log10 i2 := by
    simp [calculate_popularity_score, hviews, hdownloads, hlikes]
  have heq_r : calculate_recency_score now i1
      = calculate_recency_score now i2 := by
    simp [calculate_recency_score, hcreated]
  have heq_d : calculate_diversity_score (count_sources l) i1
      = calculate_diversity_score (count_sources l) i2 := by
    simp [calculate_diversity_score, hsrc]
  rw [score_item_none_final, score_item_none_final, scorerWeights_none,
    weightedSum_default, weightedSum_default]
  dsimp only
  rw [heq_q, heq_p, heq_r, heq_d, hk2]
  apply clamp_lt_clamp
  · linarith
  · linarith
  · linarith

/-- C9 witness: `catItem` (tagged `cat`) beats the untagged `baseItem` for
the query `qCat` in the batch `[catItem, baseItem]`. -/
theorem c9_keyword_match_boosts_rank_witness :
    (score_item (scorerWeights none) id (fun _ => 0) 0 baseItem qCat none none
        (count_sources [catItem, baseItem])).final_score
      < (score_item (scorerWeights none) id (fun _ => 0) 0 catItem qCat none
        none (count_sources [catItem, baseItem])).final_score :=
  c9_keyword_match_boosts_rank id (fun _ => 0) 0 [catItem, baseItem] qCat
    catItem baseItem rfl rfl rfl rfl rfl rfl (fun _ _ => le_refl 0)
    ⟨"cat", by decide, by simp [query_terms, qCat, baseQuery]⟩ (by decide)

/-- Filtering a score class out of an ordered insertion: the inserted
element lands in front of its own score class, because every element it
skips has a strictly greater score. -/
theorem filter_orderedInsert_score (x : MediaItem) (l : List MediaItem)
    (s : ℚ) :
    (List.orderedInsert finalGE x l).filter
        (fun a => decide (a.final_score = s))
      = if x.final_score = s
          then x :: l.filter (fun a => decide (a.final_score = s))
          else l.filter (fun a => decide (a.final_score = s)) := by
  induction l with
  | nil =>
    simp only [List.orderedInsert]
    by_cases hx : x.final_score = s
    · simp [hx]
    · simp [hx]
  | cons y ys ih =>
    by_cases hr : finalGE x y
    · rw [List.orderedInsert_of_le finalGE ys hr]
      by_cases hx : x.final_score = s
      · simp [List.filter_cons, hx]
      · simp [List.filter_cons, hx]
    · simp only [List.orderedInsert, if_neg hr]
      by_cases hx : x.final_score = s
      · have hxy : x.final_score < y.final_score := not_le.mp hr
        have hy : ¬ (y.final_score = s) := by
          rw [← hx]
          exact ne_of_gt hxy
        simp [List.filter_cons, hy, ih, hx]
      · by_cases hy : y.final_score = s
        · simp [List.filter_cons, hy, ih, hx]
        · simp [List.filter_cons, hy, ih, hx]

/-- Filtering a score class commutes with the stable sort: ties keep
their pre-sort relative order. -/
theorem filter_insertionSort_score (l : List MediaItem) (s : ℚ) :
    (List.insertionSort finalGE l).filter
        (fun a => decide (a.final_score = s))
      = l.filter (fun a => decide (a.final_score = s)) := by
  induction l with
  | nil => rfl
  | cons x xs ih =>
    simp only [List.insertionSort]
    rw [filter_orderedInsert_score, List.filter_cons]
    by_cases hx : x.final_score = s
    · simp [hx, ih]
    · simp [hx, ih]

/-- C6: for non-empty input and non-negative `limit`, the ranked output is
sorted descending by final score; when `min_quality_score > 0` every
returned item's final score is at least the threshold (equality passes);
at most `limit` items are returned; equal-score items of the sorted stage
keep exactly their pre-sort relative order (stability); and when at most
`limit` items survive the filter the entire sorted list is returned. -/
theorem c6_rank_sort_filter_truncate
    (client : Option (List String → Except String (List (List ℚ))))
    (weights : Option (List (String × ℚ))) (sqrt log10 : ℚ → ℚ) (now : Int)
    (items : List MediaItem) (query : GeneratedQuery) (min_q : ℚ)
    (limit : Int) (hne : items ≠ []) (hlim : 0 ≤ limit) :
    List.Sorted finalGE
      (rank client weights sqrt log10 now ⟨items, query, limit, min_q⟩).items
  ∧ (0 < min_q →
      ∀ x ∈ (rank client weights sqrt log10 now
          ⟨items, query, limit, min_q⟩).items,
        min_q ≤ x.final_score)
  ∧ (rank client weights sqrt log10 now
      ⟨items, query, limit, min_q⟩).items.length ≤ limit.toNat
  ∧ (∀ s : ℚ,
      (rankSorted client weights sqrt log10 now items query min_q).filter
          (fun a => decide (a.final_score = s))
        = (rankFiltered client weights sqrt log10 now items query
            min_q).filter (fun a => decide (a.final_score = s)))
  ∧ ((rankFiltered client weights sqrt log10 now items query min_q).length
        ≤ limit.toNat →
      (rank client weights sqrt log10 now ⟨items, query, limit, min_q⟩).items
        = rankSorted client weights sqrt log10 now items query min_q) := by
  have hnlt : ¬ limit < 0 := not_lt.mpr hlim
  have hrank : (rank client weights sqrt log10 now
      ⟨items, query, limit, min_q⟩).items
      = (rankSorted client weights sqrt log10 now items query min_q).take
          limit.toNat := by
    simp [rank, hne, pythonTake, hnlt]
  have hsorted : List.Sorted finalGE
      (rankSorted client weights sqrt log10 now items query min_q) :=
    List.sorted_insertionSort finalGE _
  refine ⟨?_, ?_, ?_, ?_, ?_⟩
  · rw [hrank]
    exact List.Pairwise.sublist (List.take_sublist _ _) hsorted
  · intro hpos x hx
    rw [hrank] at hx
    have hx2 : x ∈ rankSorted client weights sqrt log10 now items query min_q :=
      List.take_subset _ _ hx
    have hx3 : x ∈ rankFiltered client weights sqrt log10 now items query
        min_q := by
      simpa [rankSorted] using hx2
    rw [rankFiltered] at hx3
    simp only [if_pos hpos] at hx3
    have h4 := List.of_mem_filter hx3
    simpa using h4
  · rw [hrank]
    exact List.length_take_le _ _
  · intro s
    exact filter_insertionSort_score _ s
  · intro hlen
    rw [hrank]
    refine List.take_of_length_le ?_
    calc (rankSorted client weights sqrt log10 now items query min_q).length
        = (rankFiltered client weights sqrt log10 now items query
            min_q).length := by
          simp [rankSorted]
      _ ≤ limit.toNat := hlen

/-- C6 witness: concrete non-empty input with a positive threshold and
`limit = 3`. -/
theorem c6_rank_sort_filter_truncate_witness :
    List.Sorted finalGE
      (rank none none id id 0 ⟨[baseItem], baseQuery, 3, 1/2⟩).items
  ∧ (rank none none id id 0
      ⟨[baseItem], baseQuery, 3, 1/2⟩).items.length ≤ (3:Int).toNat :=
  ⟨(c6_rank_sort_filter_truncate none none id id 0 [baseItem] baseQuery
      (1/2) 3 (by decide) (by decide)).1,
   (c6_rank_sort_filter_truncate none none id id 0 [baseItem] baseQuery
      (1/2) 3 (by decide) (by decide)).2.2.1⟩

/-- C1 (amended): `RankerAgent.process` performs no precondition check on
`limit` — with a negative `limit` it does not fail but silently applies
Python slice semantics, returning the sorted survivors with the last
`|limit|` of them dropped; the duplicate count is returned as usual. -/
theorem c1_rank_negative_limit
    (client : Option (List String → Except String (List (List ℚ))))
    (weights : Option (List (String × ℚ))) (sqrt log10 : ℚ → ℚ) (now : Int)
    (items : List MediaItem) (query : GeneratedQuery) (min_q : ℚ)
    (limit : Int) (hneg : limit < 0) (hne : items ≠ []) :
    rank client weights sqrt log10 now ⟨items, query, limit, min_q⟩
      = ⟨(rankSorted client weights sqrt log10 now items query min_q).take
          ((rankSorted client weights sqrt log10 now items query
            min_q).length - limit.natAbs),
        (deduplicate_results items).2⟩ := by
  simp only [rank, hne, if_false, pythonTake, hneg, if_true]
  have harg : ∀ n : Nat, ((n : Int) + limit).toNat = n - limit.natAbs :=
    fun n => by omega
  rw [harg]

/-- C1 witness for the amended claim: the concrete negative-limit call. -/
theorem c1_rank_negative_limit_witness :
    rank none none id id 0 ⟨[itemA, itemB], baseQuery, -1, 0⟩
      = ⟨(rankSorted none none id id 0 [itemA, itemB] baseQuery 0).take
          ((rankSorted none none id id 0 [itemA, itemB] baseQuery 0).length
            - Int.natAbs (-1)),
        (deduplicate_results [itemA, itemB]).2⟩ :=
  c1_rank_negative_limit none none id id 0 [itemA, itemB] baseQuery 0 (-1)
    (by decide) (by decide)

/-- The two-item fixture batch survives deduplication unchanged. -/
theorem dedup_itemAB : deduplicate_results [itemA, itemB]
    = ([itemA, itemB], 0) := by
  simp [deduplicate_results, dedupGo, itemA, itemB, baseItem]

/-- Scoring the two-item fixture batch with the default configuration. -/
theorem score_items_itemAB :
    score_items none DEFAULT_WEIGHTS id id 0 [itemA, itemB] baseQuery
      = [itemARanked, itemBRanked] := by
  have hA : score_item DEFAULT_WEIGHTS id id 0 itemA baseQuery none none
      (count_sources [itemA, itemB]) = itemARanked := by
    simp [score_item, truthyVec, calculate_keyword_score, query_terms,
      baseQuery, item_terms, itemA, itemB, itemARanked, baseItem,
      calculate_quality_score, calculate_popularity_score,
      calculate_recency_score, calculate_diversity_score, count_sources,
      sourceTotal, weightedSum, DEFAULT_WEIGHTS, scoresGet]
    norm_num
  have hB : score_item DEFAULT_WEIGHTS id id 0 itemB baseQuery none none
      (count_sources [itemA, itemB]) = itemBRanked := by
    simp [score_item, truthyVec, calculate_keyword_score, query_terms,
      baseQuery, item_terms, itemA, itemB, itemBRanked, baseItem,
      calculate_quality_score, calculate_popularity_score,
      calculate_recency_score, calculate_diversity_score, count_sources,
      sourceTotal, weightedSum, DEFAULT_WEIGHTS, scoresGet]
    norm_num
  simp [score_items, itemEmbeddingAt, List.enum_cons, hA, hB]

/-- C1 counterexample: with `limit = -1` on a two-item batch the embedded
`rank` returns a normal `RankResult` holding one fully scored item — the
call silently drops the last item via slice semantics instead of failing
with a precondition violation. -/
theorem c1_counterexample :
    rank none none id id 0 rankInputNeg = ⟨[itemARanked], 0⟩ := by
  have hle : finalGE itemARanked itemBRanked := le_refl _
  have hfil : rankFiltered none none id id 0 [itemA, itemB] baseQuery 0
      = [itemARanked, itemBRanked] := by
    simp only [rankFiltered, if_neg (lt_irrefl (0:ℚ))]
    rw [rankScored, scorerWeights_none, dedup_itemAB]
    exact score_items_itemAB
  have hsorted : rankSorted none none id id 0 [itemA, itemB] baseQuery 0
      = [itemARanked, itemBRanked] := by
    rw [rankSorted, hfil]
    simp only [List.insertionSort, List.orderedInsert_nil]
    exact List.orderedInsert_of_le finalGE [] hle
  rw [rank]
  rw [if_neg (by decide : ¬ (rankInputNeg.items = []))]
  simp only [rankInputNeg]
  rw [hsorted, dedup_itemAB]
  simp [pythonTake, itemARanked, itemBRanked]

end Media
